import Mathlib

/-!
Verification development for the openwebui-Letta pipeline repository.

The repository is a family of near-duplicate Python "pipeline" scripts that
send a user message to a remote Letta agent and poll for the reply, which the
agent signals through a `send_message` tool call whose JSON arguments carry the
literal text.  This file gives a shallow embedding of the message-extraction,
polling, output-formatting and error-handling logic of the main variants
(`lettapipeline_final.py`, `async_lettapipeline.py`, `lettapipeline_enhanced.py`,
`lettapipeline.py`) and proves or refutes the specification claims about them.

Modelling conventions:
* decoded JSON data (the result of Python `json.loads`) is the inductive
  `PyVal`; Python truthiness is `PyVal.truthy`;
* Python exceptions are explicit `Except` results; a caught exception is
  handled where the source handles it, an uncaught one propagates as `.error`;
* timestamps are integers (only their ordering is ever used by the code);
* the HTTP transports are oracles: the poll transport maps the attempt index
  to the result (or exception) of that `listMessages` call.
-/

/-- A decoded JSON value, i.e. what Python `json.loads` returns.
`dict` keeps the key/value pairs in parse order (Python dicts preserve
insertion order; on duplicate keys the last binding wins, see `getField`). -/
inductive PyVal where
  | null
  | bool (b : Bool)
  | int (n : Int)
  | str (s : String)
  | list (xs : List PyVal)
  | dict (fields : List (String × PyVal))

/-- Python `==` on decoded JSON values (used by `in` membership tests).
Structural; dict comparison follows binding order, which is how every dict
compared by the pipeline is produced. -/
def PyVal.beq : PyVal → PyVal → Bool
  | .null, .null => true
  | .bool a, .bool b => a == b
  | .int a, .int b => a == b
  | .str a, .str b => a == b
  | .list [], .list [] => true
  | .list (x :: xs), .list (y :: ys) => PyVal.beq x y && PyVal.beq (.list xs) (.list ys)
  | .dict [], .dict [] => true
  | .dict ((k, v) :: fs), .dict ((l, w) :: gs) =>
    k == l && PyVal.beq v w && PyVal.beq (.dict fs) (.dict gs)
  | _, _ => false

/-- Python `x in l` for a list of decoded JSON values. -/
def pyMem (v : PyVal) (l : List PyVal) : Bool :=
  l.any (fun w => PyVal.beq v w)

/-- Python dict lookup `d[k]` / `d.get(k)`: the last binding for `k` wins
(as when `json.loads` builds a dict with duplicate keys). -/
def getField (fs : List (String × PyVal)) (k : String) : Option PyVal :=
  fs.foldl (fun acc p => if p.1 = k then some p.2 else acc) none

/-- Python truthiness of a decoded JSON value (`if x:`). -/
def PyVal.truthy : PyVal → Bool
  | .null => false
  | .bool b => b
  | .int n => n != 0
  | .str s => s != ""
  | .list xs => !xs.isEmpty
  | .dict fs => !fs.isEmpty

/-- Python `o == s` where `o` is the result of a `.get` call and `s` a string
literal: true exactly when the value is present and is that string. -/
def isStrVal (o : Option PyVal) (s : String) : Bool :=
  match o with
  | some (PyVal.str t) => t = s
  | _ => false

/-! ### A model of `json.loads`

A fuel-indexed recursive-descent parser for the JSON subset the pipeline ever
exchanges: objects, arrays, strings with the single-character escapes, integer
numbers, `true`/`false`/`null`.  (Floats and `\uXXXX` escapes are outside the
model; every claim quantifies over the parser's result, and every concrete
input used below stays inside the subset.)  `none` models a raised
`json.JSONDecodeError`. -/

def isJsonWs (c : Char) : Bool :=
  c = ' ' ∨ c = '\n' ∨ c = '\t' ∨ c = '\r'

def skipWs : List Char → List Char
  | [] => []
  | c :: cs => if isJsonWs c then skipWs cs else c :: cs

/-- Parse the body of a JSON string literal, the opening quote already
consumed; returns the decoded string and the rest of the input. -/
def parseStringBody : List Char → Option (String × List Char)
  | [] => none
  | '"' :: cs => some ("", cs)
  | '\\' :: e :: cs =>
    match
      (match e with
        | '"' => some "\""
        | '\\' => some "\\"
        | '/' => some "/"
        | 'n' => some "\n"
        | 't' => some "\t"
        | 'r' => some "\r"
        | 'b' => some "\x08"
        | 'f' => some "\x0c"
        | _ => none) with
    | some esc =>
      match parseStringBody cs with
      | some (rest, cs2) => some (esc ++ rest, cs2)
      | none => none
    | none => none
  | c :: cs =>
    match parseStringBody cs with
    | some (rest, cs2) => some (String.singleton c ++ rest, cs2)
    | none => none

def takeDigits : List Char → List Char × List Char
  | [] => ([], [])
  | c :: cs =>
    if c.isDigit then
      match takeDigits cs with
      | (ds, r) => (c :: ds, r)
    else ([], c :: cs)

def digitsToNat (ds : List Char) : Nat :=
  ds.foldl (fun acc c => acc * 10 + (c.toNat - 48)) 0

mutual

def parseValue : Nat → List Char → Option (PyVal × List Char)
  | 0, _ => none
  | f + 1, cs =>
    match skipWs cs with
    | '"' :: cs1 =>
      match parseStringBody cs1 with
      | some (s, r) => some (PyVal.str s, r)
      | none => none
    | '\x7b' :: cs1 =>
      match skipWs cs1 with
      | '\x7d' :: r => some (PyVal.dict [], r)
      | cs2 =>
        match parseMembers f cs2 with
        | some (fs, r) => some (PyVal.dict fs, r)
        | none => none
    | '[' :: cs1 =>
      match skipWs cs1 with
      | ']' :: r => some (PyVal.list [], r)
      | cs2 =>
        match parseElems f cs2 with
        | some (xs, r) => some (PyVal.list xs, r)
        | none => none
    | 't' :: 'r' :: 'u' :: 'e' :: r => some (PyVal.bool true, r)
    | 'f' :: 'a' :: 'l' :: 's' :: 'e' :: r => some (PyVal.bool false, r)
    | 'n' :: 'u' :: 'l' :: 'l' :: r => some (PyVal.null, r)
    | '-' :: c :: cs1 =>
      if c.isDigit then
        match takeDigits (c :: cs1) with
        | (ds, r) => some (PyVal.int (-(Int.ofNat (digitsToNat ds))), r)
      else none
    | c :: cs1 =>
      if c.isDigit then
        match takeDigits (c :: cs1) with
        | (ds, r) => some (PyVal.int (Int.ofNat (digitsToNat ds)), r)
      else none
    | [] => none

def parseMembers : Nat → List Char → Option (List (String × PyVal) × List Char)
  | 0, _ => none
  | f + 1, cs =>
    match skipWs cs with
    | '"' :: cs1 =>
      match parseStringBody cs1 with
      | some (k, r1) =>
        match skipWs r1 with
        | ':' :: r2 =>
          match parseValue f r2 with
          | some (v, r3) =>
            match skipWs r3 with
            | ',' :: r4 =>
              match parseMembers f r4 with
              | some (fs, r5) => some ((k, v) :: fs, r5)
              | none => none
            | '\x7d' :: r4 => some ([(k, v)], r4)
            | _ => none
          | none => none
        | _ => none
      | none => none
    | _ => none

def parseElems : Nat → List Char → Option (List PyVal × List Char)
  | 0, _ => none
  | f + 1, cs =>
    match parseValue f cs with
    | some (v, r1) =>
      match skipWs r1 with
      | ',' :: r2 =>
        match parseElems f r2 with
        | some (xs, r3) => some (v :: xs, r3)
        | none => none
      | ']' :: r2 => some ([v], r2)
      | _ => none
    | none => none

end

/-- Model of Python `json.loads`: parse one JSON value and require that only
whitespace follows.  `none` models a raised `json.JSONDecodeError`. -/
def json_loads (s : String) : Option PyVal :=
  match parseValue (s.length + 1) s.data with
  | some (v, r) => if skipWs r = [] then some v else none
  | none => none

/-! ## `lettapipeline_final.py` (synchronous letta-client variant)

Messages come back from the letta client as attribute objects.  `Option`
fields model the `hasattr` probes of the source: `none` means the attribute is
absent.  Timestamps are integers; only their ordering is used. -/

/-- The `.function` payload of a letta tool call (`function.name`,
`function.arguments`). -/
structure ToolFunction where
  name : String
  arguments : String

/-- A letta tool-call object; `function = none` models an object on which
`hasattr(tool_call, 'function')` is false. -/
structure LettaToolCall where
  function : Option ToolFunction

/-- A letta message object.  `created_at = none` models a missing
`created_at` attribute (the source then uses time `0`); `tool_calls = none`
models `hasattr(msg, 'tool_calls')` being false. -/
structure LettaMessage where
  created_at : Option Int
  role : String
  tool_calls : Option (List LettaToolCall)

/-- `msg.created_at.timestamp() if hasattr(msg, 'created_at') else 0`. -/
def msgTime (m : LettaMessage) : Int :=
  m.created_at.getD 0

/-- The inner tool-call loop of `Pipeline.get_response_message`
(`lettapipeline_final.py:82-90`): return the `message` argument of the first
`send_message` call whose arguments parse as a JSON object containing the key
`message`.  A parse failure, or arguments that decode to a non-dict (where
`'message' in args` or `args['message']` raises and the bare `except`
fires), makes the loop continue with the next tool call. -/
def extractFromToolCalls : List LettaToolCall → Option PyVal
  | [] => none
  | tc :: rest =>
    match tc.function with
    | some f =>
      if f.name = "send_message" then
        match json_loads f.arguments with
        | some (PyVal.dict args) =>
          match getField args "message" with
          | some v => some v
          | none => extractFromToolCalls rest
        | _ => extractFromToolCalls rest
      else extractFromToolCalls rest
    | none => extractFromToolCalls rest

/-- One pass of the message loop of `get_response_message`
(`lettapipeline_final.py:76-91`), already reversed: first message with
`msg_time > after_time` and `role == "assistant"` whose tool calls yield a
result wins; otherwise continue. -/
def scanRev (after_time : Int) : List LettaMessage → Option PyVal
  | [] => none
  | m :: rest =>
    if msgTime m > after_time ∧ m.role = "assistant" then
      match m.tool_calls with
      | some tcs =>
        match extractFromToolCalls tcs with
        | some v => some v
        | none => scanRev after_time rest
      | none => scanRev after_time rest
    else scanRev after_time rest

/-- One poll of `get_response_message`: `for msg in reversed(messages)` over
the window returned by `client.get_messages`. -/
def scanMessages (msgs : List LettaMessage) (after_time : Int) : Option PyVal :=
  scanRev after_time msgs.reverse

/-- The retry loop of `get_response_message` (`lettapipeline_final.py:73-96`)
against a transport oracle mapping the attempt index to that
`client.get_messages` call's outcome (`.error` = raised exception).  Returns
the extraction result together with the number of `get_messages` calls
actually issued.  An exception escapes the `while` loop to the outer
`except`, which returns `None` — so it ends polling after the call that
raised. -/
def finalPollAux (tr : Nat → Except String (List LettaMessage)) (after : Int) :
    Nat → Nat → Option PyVal × Nat
  | _, 0 => (none, 0)
  | idx, rem + 1 =>
    match tr idx with
    | .error _ => (none, 1)
    | .ok msgs =>
      match scanMessages msgs after with
      | some v => (some v, 1)
      | none =>
        match finalPollAux tr after (idx + 1) rem with
        | (r, c) => (r, c + 1)

/-- `Pipeline.get_response_message` of `lettapipeline_final.py` with its
hard-coded `max_attempts = 5`. -/
def get_response_message (tr : Nat → Except String (List LettaMessage))
    (after : Int) : Option PyVal × Nat :=
  finalPollAux tr after 0 5

/-- `self.name` of the final pipeline. -/
def pipelineName : String := "Letta Chat with OpenWebUI Integration"

/-- The fixed fallback reply. -/
def apology : String := "I apologize, but I couldn't process your message at this time."

/-- Transport oracle for `lettapipeline_final.py`'s `pipe`: outcomes of the
optional system-context send, of the user-message send, and of each
`get_messages` poll.  `.error e` models a raised exception with `str(e) = e`. -/
structure FinalTransport where
  sendSystem : Except String Unit
  sendUser : Except String Unit
  listMessages : Nat → Except String (List LettaMessage)

/-- The possible values `pipe` hands back to its caller: a plain string, a
non-string value (a non-string `message` argument is returned as-is), or the
character-streaming generator over a value. -/
inductive PipeOut where
  | str (s : String)
  | value (v : PyVal)
  | stream (v : PyVal)

/-- `Pipeline.pipe` of `lettapipeline_final.py` (lines 107-172).
`hasSources` abstracts whether the prior-message scan produced any source
context (in which case a system message is sent first); `t` is the recorded
`request_time`.  Any exception raised by a send is caught by the outer
handler and rendered as the error string; `get_response_message` catches its
own exceptions.  A falsy response (absent, empty string, JSON `null`, `0`,
...) yields the apology string. -/
def final_pipe (title : Bool) (hasSources : Bool) (tp : FinalTransport)
    (stream : Bool) (t : Int) : PipeOut :=
  if title then PipeOut.str pipelineName
  else
    match (if hasSources then tp.sendSystem else Except.ok ()) with
    | .error e => PipeOut.str ("Error communicating with agent: " ++ e)
    | .ok _ =>
      match tp.sendUser with
      | .error e => PipeOut.str ("Error communicating with agent: " ++ e)
      | .ok _ =>
        match (get_response_message tp.listMessages t).1 with
        | some v =>
          if v.truthy then
            if stream then PipeOut.stream v
            else
              match v with
              | PyVal.str s => PipeOut.str s
              | v => PipeOut.value v
          else PipeOut.str apology
        | none => PipeOut.str apology

/-- `Pipeline.stream_response` of `lettapipeline_final.py` (lines 101-105):
yield the response one character at a time (Python iterates a `str` by code
point, so no character is ever split). -/
def stream_response_chunks (s : String) : List String :=
  s.data.map (fun c => String.singleton c)

/-- The chunked streaming loop of `lettapipeline_enhanced.py`'s `pipe`
(lines 214-215): `response_text[i:i + size]` for `i in range(0, len, size)`,
on the code-point list; fuel-indexed (the fuel `length` is sufficient whenever
`size ≥ 1`; `size = 0` raises `ValueError` in the source and is outside the
model). -/
def chunksAux (size : Nat) : Nat → List Char → List (List Char)
  | 0, _ => []
  | _, [] => []
  | fuel + 1, c :: cs => List.take size (c :: cs) :: chunksAux size fuel (List.drop size (c :: cs))

/-- `lettapipeline_enhanced.py` chunked output as strings. -/
def enhanced_chunks (size : Nat) (s : String) : List String :=
  (chunksAux size s.length s.data).map (fun l => String.mk l)

/-- Concatenation of emitted chunks in emission order. -/
def concatChunks (l : List String) : String :=
  l.foldl (fun a b => a ++ b) ""

/-! ## `async_lettapipeline.py` (httpx event-envelope variant)

Messages here are plain decoded-JSON dicts (`PyVal`).  Stream events are the
`json.dumps`-ed `StreamEvent{type, data}` payloads, modelled structurally.
Exception messages (`str(e)`) for exceptions that arise inside the model are
carried as explicit strings naming the Python exception class. -/

/-- A stream event, i.e. the `{type, data}` record the generator yields:
`chat:title{title}`, `chat:completion{message, done}` or `chat:error{message}`. -/
inductive Ev where
  | title (t : String)
  | completion (message : PyVal) (done : Bool)
  | error (message : String)

/-- A terminal record: a `chat:completion` with `done:true`, or a `chat:error`. -/
def Ev.isTerminal : Ev → Bool
  | .completion _ d => d
  | .error _ => true
  | .title _ => false

/-- The httpx exceptions distinguished by `pipe`'s handlers: a non-2xx status
(`raise_for_status`), a connection-level `RequestError`, a `JSONDecodeError`
from `response.json()`, or any other exception with message `msg`. -/
inductive HttpxErr where
  | status (code : Nat)
  | request
  | jsonDecode
  | other (msg : String)

/-- Transport oracle for the async pipeline: the outcome of the initial
`POST .../messages` (after `raise_for_status` and `.json()`), and for each
polling attempt the outcome of `GET .../messages?limit=10` (any exception
there is caught by the in-loop handler, so only its presence matters). -/
structure AsyncTransport where
  post : Except HttpxErr PyVal
  getMessages : Nat → Except String PyVal

/-- `Pipeline._extract_message_content` (`async_lettapipeline.py:75-83`).
`.ok none` is the `return None` paths (name not `send_message`, or a
`json.JSONDecodeError`, which is the only exception the handler catches);
`.ok (some v)` is `return args.get('message', '')`.  `.error` models an
uncaught exception: `tool_call.get` on a non-dict (`AttributeError`),
`json.loads` of a non-string (`TypeError`), or `args.get` when the arguments
decode to a non-dict (`AttributeError`). -/
def extract_message_content (tc : PyVal) : Except String (Option PyVal) :=
  match tc with
  | PyVal.dict fs =>
    if isStrVal (getField fs "name") "send_message" then
      match getField fs "arguments" with
      | none =>
        -- `tool_call.get('arguments', '{}')` falls back to the literal
        -- string `'{}'`, which decodes to the empty dict, so
        -- `args.get('message', '')` is the empty string.
        Except.ok (some (PyVal.str ""))
      | some (PyVal.str s) =>
        match json_loads s with
        | none => Except.ok none
        | some (PyVal.dict args) =>
          Except.ok (some ((getField args "message").getD (PyVal.str "")))
        | some _ => Except.error "AttributeError"
      | some _ => Except.error "TypeError"
    else Except.ok none
  | _ => Except.error "AttributeError"

/-- Python iteration over a decoded JSON value (`for msg in messages`):
lists yield their elements, strings their characters, dicts their keys;
anything else raises `TypeError`. -/
def pyIter : PyVal → Except String (List PyVal)
  | PyVal.list xs => Except.ok xs
  | PyVal.str s => Except.ok (s.data.map (fun c => PyVal.str (String.singleton c)))
  | PyVal.dict fs => Except.ok (fs.map (fun p => PyVal.str p.1))
  | _ => Except.error "TypeError"

/-- The loop body of `Pipeline._process_messages`
(`async_lettapipeline.py:85-93`) over the already-materialised element list:
first truthy extracted content wins; `msg.get` on a non-dict raises
`AttributeError`; extraction errors propagate. -/
def process_messages_go : List PyVal → Except String (Option PyVal)
  | [] => Except.ok none
  | m :: rest =>
    match m with
    | PyVal.dict fs =>
      if isStrVal (getField fs "message_type") "tool_call_message" then
        match extract_message_content ((getField fs "tool_call").getD (PyVal.dict [])) with
        | .error e => Except.error e
        | .ok (some v) =>
          if v.truthy then Except.ok (some v) else process_messages_go rest
        | .ok none => process_messages_go rest
      else process_messages_go rest
    | _ => Except.error "AttributeError"

/-- `Pipeline._process_messages` applied to a decoded JSON value. -/
def process_messages (msgs : PyVal) : Except String (Option PyVal) :=
  match pyIter msgs with
  | .error e => Except.error e
  | .ok l => process_messages_go l

/-- The body of the polling `for msg in reversed(messages_data)` scan
(`async_lettapipeline.py:163-172`), over the already-reversed list, carrying
`accumulated_content`.  Returns the contents yielded as incremental
`done:false` events (in order), the updated accumulator, and whether an
exception interrupted the scan (to be caught by the in-loop handler). -/
def pollScan : List PyVal → List PyVal → List PyVal × List PyVal × Bool
  | [], acc => ([], acc, false)
  | m :: rest, acc =>
    match m with
    | PyVal.dict fs =>
      if isStrVal (getField fs "message_type") "tool_call_message" then
        match extract_message_content ((getField fs "tool_call").getD (PyVal.dict [])) with
        | .error _ => ([], acc, true)
        | .ok (some v) =>
          if v.truthy ∧ pyMem v acc = false then
            match pollScan rest (acc ++ [v]) with
            | (es, acc2, r) => (v :: es, acc2, r)
          else pollScan rest acc
        | .ok none => pollScan rest acc
      else pollScan rest acc
    | _ => ([], acc, true)

/-- `" ".join(accumulated_content)`: raises `TypeError` unless every element
is a string. -/
def joinContents (l : List PyVal) : Except String String :=
  if l.all (fun v => match v with | PyVal.str _ => true | _ => false) then
    Except.ok (String.intercalate " "
      (l.map (fun v => match v with | PyVal.str s => s | _ => "")))
  else Except.error "TypeError"

/-- The polling `while retry_count < max_retries` loop of the async `pipe`
(`async_lettapipeline.py:150-194`): state is the attempt index, the remaining
attempts and `accumulated_content`.  Returns the events yielded from this
point on together with the number of `GET` polls issued.  Any exception
inside an attempt (transport, scan, or the `" ".join`) is caught by the
in-loop handler and consumes the attempt; exhaustion yields the apology
completion with `done:true`. -/
def pollLoop (tr : Nat → Except String PyVal) : Nat → Nat → List PyVal → List Ev × Nat
  | _, 0, _ => ([Ev.completion (PyVal.str apology) true], 0)
  | idx, rem + 1, acc =>
    match tr idx with
    | .error _ =>
      match pollLoop tr (idx + 1) rem acc with
      | (es, n) => (es, n + 1)
    | .ok md =>
      match md with
      | PyVal.list (m :: ms) =>
        match pollScan ((m :: ms).reverse) acc with
        | (emitted, acc2, raised) =>
          let evs := emitted.map (fun c => Ev.completion c false)
          if raised then
            match pollLoop tr (idx + 1) rem acc2 with
            | (es, n) => (evs ++ es, n + 1)
          else if acc2.isEmpty then
            match pollLoop tr (idx + 1) rem acc2 with
            | (es, n) => (evs ++ es, n + 1)
          else
            match joinContents acc2 with
            | .ok j => (evs ++ [Ev.completion (PyVal.str j) true], 1)
            | .error _ =>
              match pollLoop tr (idx + 1) rem acc2 with
              | (es, n) => (evs ++ es, n + 1)
      | _ =>
        match pollLoop tr (idx + 1) rem acc with
        | (es, n) => (es, n + 1)

/-- `self.name` of the async pipeline. -/
def asyncName : String := "Async Letta Chat"

/-- `Pipeline.pipe` of `async_lettapipeline.py` (lines 95-221) as the full
sequence of yielded events.  A truthy `title` yields only the `chat:title`
event.  Otherwise the initial `chat:completion{message:"", done:false}` is
yielded, then the initial `POST` response is checked via `_process_messages`
(`response_data.get('messages', [])`; a non-dict response raises
`AttributeError` into the generic handler), then the polling loop runs with
`max_retries = 5`.  Each `except` branch yields the corresponding
`chat:error` event. -/
def async_pipe (title : Bool) (tr : AsyncTransport) : List Ev :=
  if title then [Ev.title asyncName]
  else
    Ev.completion (PyVal.str "") false ::
    match tr.post with
    | .error (HttpxErr.status c) =>
      [Ev.error ("Failed to communicate with agent: " ++ toString c)]
    | .error HttpxErr.request => [Ev.error "Failed to connect to agent service"]
    | .error HttpxErr.jsonDecode => [Ev.error "Failed to process agent response"]
    | .error (HttpxErr.other m) => [Ev.error ("An unexpected error occurred: " ++ m)]
    | .ok rd =>
      match rd with
      | PyVal.dict fs =>
        match process_messages ((getField fs "messages").getD (PyVal.list [])) with
        | .error e => [Ev.error ("An unexpected error occurred: " ++ e)]
        | .ok (some content) =>
          if content.truthy then [Ev.completion content true]
          else (pollLoop tr.getMessages 0 5 []).1
        | .ok none => (pollLoop tr.getMessages 0 5 []).1
      | _ => [Ev.error ("An unexpected error occurred: " ++ "AttributeError")]

/-- A poll attempt outcome from which nothing is extracted: the attempt
raised, returned something other than a non-empty list, or a scan of the
returned window starting from an empty accumulator yields nothing. -/
def attemptNoResult : Except String PyVal → Bool
  | .error _ => true
  | .ok (PyVal.list (m :: ms)) =>
    match pollScan ((m :: ms).reverse) [] with
    | (emitted, acc2, _) => emitted.isEmpty && acc2.isEmpty
  | .ok _ => true

/-! ## Concrete fixtures

A stale agent window entry: a `tool_call_message` created at time 5 (before
any request time ≥ 5) with role `user`, carrying `send_message` arguments
`message: "old"`. -/

def staleFields : List (String × PyVal) :=
  [("message_type", PyVal.str "tool_call_message"),
   ("role", PyVal.str "user"),
   ("created_at", PyVal.int 5),
   ("tool_call", PyVal.dict
     [("name", PyVal.str "send_message"),
      ("arguments", PyVal.str "\x7b\"message\": \"old\"\x7d")])]

def staleToolCallMsg : PyVal := PyVal.dict staleFields

/-- A fresh assistant `tool_call_message` created at time 100 carrying
`send_message` arguments `message: "Hi there"`. -/
def freshFields : List (String × PyVal) :=
  [("message_type", PyVal.str "tool_call_message"),
   ("role", PyVal.str "assistant"),
   ("created_at", PyVal.int 100),
   ("tool_call", PyVal.dict
     [("name", PyVal.str "send_message"),
      ("arguments", PyVal.str "\x7b\"message\": \"Hi there\"\x7d")])]

def freshToolCallMsg : PyVal := PyVal.dict freshFields

/-! ## Sanity checks of the embedding on concrete data -/

example : json_loads "\x7b\"message\": \"Hi there\"\x7d"
    = some (PyVal.dict [("message", PyVal.str "Hi there")]) := rfl
example : json_loads "\x7bnot json" = none := rfl
example : json_loads "\x7b\x7d" = some (PyVal.dict []) := rfl
example : json_loads "[1, \"a\", null, true]"
    = some (PyVal.list [PyVal.int 1, PyVal.str "a", PyVal.null, PyVal.bool true]) := rfl

example :
    scanMessages
      [⟨some 3, "assistant",
        some [⟨some ⟨"send_message", "\x7b\"message\": \"Hi there\"\x7d"⟩⟩]⟩]
      1 = some (PyVal.str "Hi there") := rfl

example : get_response_message (fun _ => Except.error "timeout") 0 = (none, 1) := rfl

example :
    process_messages (PyVal.list
      [PyVal.dict
        [("message_type", PyVal.str "tool_call_message"),
         ("role", PyVal.str "user"),
         ("created_at", PyVal.int 5),
         ("tool_call", PyVal.dict
           [("name", PyVal.str "send_message"),
            ("arguments", PyVal.str "\x7b\"message\": \"stale reply\"\x7d")])]])
      = Except.ok (some (PyVal.str "stale reply")) := rfl

/-! ## Theorems -/

theorem concatChunks_data (l : List String) (a : String) :
    (l.foldl (fun x y => x ++ y) a).data = a.data ++ (l.map String.data).flatten := by
  induction l generalizing a with
  | nil => simp
  | cons s rest ih => simp [ih, String.data_append]

theorem flatten_singletons : ∀ l : List Char, (l.map (fun c => [c])).flatten = l := by
  intro l
  induction l with
  | nil => rfl
  | cons c cs ih => simp [ih]

theorem chunksAux_flatten (size : Nat) (hs : 0 < size) :
    ∀ (fuel : Nat) (l : List Char), l.length ≤ fuel →
      (chunksAux size fuel l).flatten = l := by
  intro fuel
  induction fuel with
  | zero =>
    intro l hl
    have : l = [] := List.length_eq_zero.mp (Nat.le_zero.mp hl)
    subst this
    rfl
  | succ f ih =>
    intro l hl
    cases l with
    | nil => rfl
    | cons c cs =>
      have hlen : cs.length + 1 ≤ f + 1 := by simpa using hl
      have hdrop : (List.drop size (c :: cs)).length ≤ f := by
        simp only [List.length_drop, List.length_cons]
        omega
      show (List.take size (c :: cs) :: chunksAux size f (List.drop size (c :: cs))).flatten
          = c :: cs
      rw [List.flatten_cons, ih (List.drop size (c :: cs)) hdrop, List.take_append_drop]

theorem concatChunks_flatten (l : List String) :
    (concatChunks l).data = (l.map String.data).flatten := by
  simpa using concatChunks_data l ""

/-- C6: for every input string (the empty string included), concatenating the
chunks emitted by the chunked output formatters — the character-wise
`stream_response` of `lettapipeline_final.py` and the `stream_chunk_size`
slicing of `lettapipeline_enhanced.py` (for any positive chunk size) — in
emission order reproduces the original string exactly; the empty string
yields zero chunks.  Chunks are produced on the code-point sequence, so no
character is split. -/
theorem chunked_output_roundtrip (s : String) (size : Nat) (hs : 0 < size) :
    concatChunks (stream_response_chunks s) = s ∧
    stream_response_chunks "" = [] ∧
    concatChunks (enhanced_chunks size s) = s ∧
    enhanced_chunks size "" = [] := by
  refine ⟨?_, rfl, ?_, rfl⟩
  · apply String.ext
    rw [concatChunks_flatten]
    show ((s.data.map String.singleton).map String.data).flatten = s.data
    rw [List.map_map]
    exact flatten_singletons s.data
  · apply String.ext
    rw [concatChunks_flatten]
    show (((chunksAux size s.length s.data).map String.mk).map String.data).flatten
        = s.data
    rw [List.map_map]
    show ((chunksAux size s.length s.data).map (fun l => l)).flatten = s.data
    rw [List.map_id']
    exact chunksAux_flatten size hs s.length s.data le_rfl

/-- Witness for `chunked_output_roundtrip` at chunk size 2 and a string with
a multi-byte character. -/
theorem chunked_output_roundtrip_witness :
    0 < 2 ∧ concatChunks (enhanced_chunks 2 "ab😀cde") = "ab😀cde" :=
  ⟨Nat.succ_pos 1, (chunked_output_roundtrip "ab😀cde" 2 (Nat.succ_pos 1)).2.2.1⟩

theorem process_go_truthy : ∀ (l : List PyVal) (v : PyVal),
    process_messages_go l = Except.ok (some v) → v.truthy = true := by
  intro l
  induction l with
  | nil => intro v h; simp [process_messages_go] at h
  | cons m rest ih =>
    intro v h
    cases m with
    | dict fs =>
      simp only [process_messages_go] at h
      split at h
      · split at h
        · exact absurd h (by simp)
        · rename_i w heq
          split at h
          · rename_i hw
            cases h
            exact hw
          · exact ih v h
        · exact ih v h
      · exact ih v h
    | null => simp [process_messages_go] at h
    | bool b => simp [process_messages_go] at h
    | int n => simp [process_messages_go] at h
    | str s => simp [process_messages_go] at h
    | list xs => simp [process_messages_go] at h

/-- C10: an eligible tool-call message whose `send_message` arguments decode
to an empty or missing `message` field is treated as no result — the empty
content fails the `if content:` truthiness check in `_process_messages` and
the scan continues with the remaining messages — and consequently the async
extraction can never produce the empty string. -/
theorem extraction_empty_is_skipped (msgs : PyVal) (v : PyVal)
    (fs : List (String × PyVal)) (rest : List PyVal)
    (h : process_messages msgs = Except.ok (some v))
    (hempty : extract_message_content ((getField fs "tool_call").getD (PyVal.dict []))
      = Except.ok (some (PyVal.str ""))) :
    v.truthy = true ∧ v ≠ PyVal.str "" ∧
    process_messages_go (PyVal.dict fs :: rest) = process_messages_go rest := by
  have ht : v.truthy = true := by
    unfold process_messages at h
    cases hi : pyIter msgs with
    | error e => rw [hi] at h; exact absurd h (by simp)
    | ok l => rw [hi] at h; exact process_go_truthy l v h
  refine ⟨ht, ?_, ?_⟩
  · intro hv
    rw [hv] at ht
    simp [PyVal.truthy] at ht
  · simp only [process_messages_go]
    split
    · rw [hempty]
      simp [PyVal.truthy]
    · rfl

/-- Witness for `extraction_empty_is_skipped`: a window with one message
carrying `message: "hello"`, and a skipped message carrying `message: ""`. -/
theorem extraction_empty_is_skipped_witness :
    (PyVal.str "hello").truthy = true ∧ PyVal.str "hello" ≠ PyVal.str "" ∧
    process_messages_go
      [PyVal.dict
        [("message_type", PyVal.str "tool_call_message"),
         ("tool_call", PyVal.dict
           [("name", PyVal.str "send_message"),
            ("arguments", PyVal.str "\x7b\"message\": \"\"\x7d")])]]
      = process_messages_go [] :=
  extraction_empty_is_skipped
    (PyVal.list
      [PyVal.dict
        [("message_type", PyVal.str "tool_call_message"),
         ("tool_call", PyVal.dict
           [("name", PyVal.str "send_message"),
            ("arguments", PyVal.str "\x7b\"message\": \"hello\"\x7d")])]])
    (PyVal.str "hello")
    [("message_type", PyVal.str "tool_call_message"),
     ("tool_call", PyVal.dict
       [("name", PyVal.str "send_message"),
        ("arguments", PyVal.str "\x7b\"message\": \"\"\x7d")])]
    [] rfl rfl

/-- C7: a `send_message` tool call whose arguments string is not valid JSON
never raises.  In `lettapipeline_final.py` the bare `except` makes the
tool-call loop continue past it; in `async_lettapipeline.py` the
`json.JSONDecodeError` handler turns it into `return None` (`.ok none`, not
an uncaught `.error`), and `_process_messages` then continues with the
remaining messages, returning absent if none qualifies. -/
theorem malformed_json_skipped (args : String) (h : json_loads args = none) :
    (∀ (rest : List LettaToolCall),
      extractFromToolCalls (⟨some ⟨"send_message", args⟩⟩ :: rest)
        = extractFromToolCalls rest) ∧
    (∀ (tcf : List (String × PyVal)),
      isStrVal (getField tcf "name") "send_message" = true →
      getField tcf "arguments" = some (PyVal.str args) →
      extract_message_content (PyVal.dict tcf) = Except.ok none) ∧
    (∀ (fs : List (String × PyVal)) (rest : List PyVal),
      extract_message_content ((getField fs "tool_call").getD (PyVal.dict []))
        = Except.ok none →
      process_messages_go (PyVal.dict fs :: rest) = process_messages_go rest) := by
  refine ⟨?_, ?_, ?_⟩
  · intro rest
    simp [extractFromToolCalls, h]
  · intro tcf hname harg
    simp [extract_message_content, hname, harg, h]
  · intro fs rest hex
    simp only [process_messages_go]
    split
    · rw [hex]
    · rfl

/-- Witness for `malformed_json_skipped` at the literal malformed arguments
string of the specification, `"{not json"`. -/
theorem malformed_json_skipped_witness :
    json_loads "\x7bnot json" = none ∧
    extract_message_content (PyVal.dict
      [("name", PyVal.str "send_message"),
       ("arguments", PyVal.str "\x7bnot json")]) = Except.ok none :=
  ⟨rfl,
   (malformed_json_skipped "\x7bnot json" rfl).2.1
     [("name", PyVal.str "send_message"), ("arguments", PyVal.str "\x7bnot json")]
     rfl rfl⟩

theorem scanRev_skip (t : Int) (l l' : List LettaMessage)
    (h : ∀ m ∈ l, ¬(msgTime m > t ∧ m.role = "assistant")) :
    scanRev t (l ++ l') = scanRev t l' := by
  induction l with
  | nil => rfl
  | cons m0 rest ih =>
    show scanRev t (m0 :: (rest ++ l')) = scanRev t l'
    simp only [scanRev]
    rw [if_neg (h m0 (List.mem_cons_self m0 rest))]
    exact ih (fun m hm => h m (List.mem_cons_of_mem _ hm))

theorem scanRev_none (t : Int) (l : List LettaMessage)
    (h : ∀ m ∈ l, ¬(msgTime m > t ∧ m.role = "assistant")) :
    scanRev t l = none := by
  have := scanRev_skip t l [] h
  simpa using this

theorem scanRev_eligible (t : Int) : ∀ (l : List LettaMessage) (v : PyVal),
    scanRev t l = some v →
    ∃ m ∈ l, (msgTime m > t ∧ m.role = "assistant") ∧
      ∃ tcs, m.tool_calls = some tcs ∧ extractFromToolCalls tcs = some v := by
  intro l
  induction l with
  | nil => intro v h; simp [scanRev] at h
  | cons m0 rest ih =>
    intro v h
    simp only [scanRev] at h
    by_cases he : msgTime m0 > t ∧ m0.role = "assistant"
    · rw [if_pos he] at h
      cases htc : m0.tool_calls with
      | none =>
        rw [htc] at h
        obtain ⟨m, hm, hme, hprov⟩ := ih v h
        exact ⟨m, List.mem_cons_of_mem _ hm, hme, hprov⟩
      | some tcs =>
        rw [htc] at h
        dsimp only at h
        cases hex : extractFromToolCalls tcs with
        | none =>
          rw [hex] at h
          obtain ⟨m, hm, hme, hprov⟩ := ih v h
          exact ⟨m, List.mem_cons_of_mem _ hm, hme, hprov⟩
        | some w =>
          rw [hex] at h
          cases h
          exact ⟨m0, List.mem_cons_self _ _, he, tcs, htc, hex⟩
    · rw [if_neg he] at h
      obtain ⟨m, hm, hme, hprov⟩ := ih v h
      exact ⟨m, List.mem_cons_of_mem _ hm, hme, hprov⟩

theorem scanMessages_stale_none (msgs : List LettaMessage) (t : Int)
    (h : ∀ m ∈ msgs, m.role = "assistant" → msgTime m ≤ t) :
    scanMessages msgs t = none := by
  apply scanRev_none
  intro m hm
  intro hc
  have := h m (List.mem_reverse.mp hm) hc.2
  omega

theorem finalPollAux_none (tr : Nat → Except String (List LettaMessage)) (t : Int)
    (h : ∀ i ms, tr i = Except.ok ms → scanMessages ms t = none) :
    ∀ (rem idx : Nat), (finalPollAux tr t idx rem).1 = none := by
  intro rem
  induction rem with
  | zero => intro idx; rfl
  | succ r ih =>
    intro idx
    simp only [finalPollAux]
    cases htr : tr idx with
    | error e => rfl
    | ok ms =>
      simp only [h idx ms htr]
      exact ih (idx + 1)

/-- C2 (amended): the synchronous extraction `get_response_message` of
`lettapipeline_final.py` only ever returns content taken from a message with
`created_at > request_time` and `role == "assistant"` — whenever the scan
returns `v`, some eligible message of the window carries tool calls whose
extraction yields exactly `v` — and when every assistant message in every
polled window is at or before the request time it returns absent regardless
of content.  (The async `_process_messages`, by contrast, applies no
timestamp or role filter — see the counterexample
`async_extraction_returns_stale`.) -/
theorem sync_extraction_timestamp_filter (msgs : List LettaMessage) (t : Int)
    (tr : Nat → Except String (List LettaMessage))
    (hstale : ∀ i ms, tr i = Except.ok ms →
      ∀ m ∈ ms, m.role = "assistant" → msgTime m ≤ t)
    (hall : ∀ m ∈ msgs, m.role = "assistant" → msgTime m ≤ t) :
    scanMessages msgs t = none ∧
    (get_response_message tr t).1 = none ∧
    (∀ (msgs' : List LettaMessage) (t' : Int) (v : PyVal),
      scanMessages msgs' t' = some v →
      ∃ m ∈ msgs', (msgTime m > t' ∧ m.role = "assistant") ∧
        ∃ tcs, m.tool_calls = some tcs ∧ extractFromToolCalls tcs = some v) := by
  refine ⟨scanMessages_stale_none msgs t hall, ?_, ?_⟩
  · exact finalPollAux_none tr t
      (fun i ms hms => scanMessages_stale_none ms t (hstale i ms hms)) 5 0
  · intro msgs' t' v h
    obtain ⟨m, hm, hme, hprov⟩ := scanRev_eligible t' msgs'.reverse v h
    exact ⟨m, List.mem_reverse.mp hm, hme, hprov⟩

/-- Witness for `sync_extraction_timestamp_filter`: a window whose only
assistant message (time 5, message `"old"`) is at or before the request time
5, polled by a constant transport. -/
theorem sync_extraction_timestamp_filter_witness :
    scanMessages
      [⟨some 5, "assistant",
        some [⟨some ⟨"send_message", "\x7b\"message\": \"old\"\x7d"⟩⟩]⟩] 5 = none ∧
    (get_response_message
      (fun _ => Except.ok
        [⟨some 5, "assistant",
          some [⟨some ⟨"send_message", "\x7b\"message\": \"old\"\x7d"⟩⟩]⟩]) 5).1 = none ∧
    (∀ (msgs' : List LettaMessage) (t' : Int) (v : PyVal),
      scanMessages msgs' t' = some v →
      ∃ m ∈ msgs', (msgTime m > t' ∧ m.role = "assistant") ∧
        ∃ tcs, m.tool_calls = some tcs ∧ extractFromToolCalls tcs = some v) :=
  sync_extraction_timestamp_filter
    [⟨some 5, "assistant",
      some [⟨some ⟨"send_message", "\x7b\"message\": \"old\"\x7d"⟩⟩]⟩] 5
    (fun _ => Except.ok
      [⟨some 5, "assistant",
        some [⟨some ⟨"send_message", "\x7b\"message\": \"old\"\x7d"⟩⟩]⟩])
    (by
      intro i ms hms m hm hrole
      cases hms
      simp at hm
      subst hm
      decide)
    (by
      intro m hm hrole
      simp at hm
      subst hm
      decide)

/-- C2 counterexample: the claim asserts that extraction (including the
async `_process_messages`) only returns content from messages with
`createdAt` strictly greater than the request timestamp and role
`"assistant"`.  The async extraction has no such filter: on a window whose
only entry was created at time 5 with role `"user"`, it still returns that
entry's `"old"` content, for any request timestamp (e.g. 1000). -/
theorem async_extraction_returns_stale :
    process_messages (PyVal.list [staleToolCallMsg])
      = Except.ok (some (PyVal.str "old")) ∧
    isStrVal (getField staleFields "role") "assistant" = false ∧
    getField staleFields "created_at" = some (PyVal.int 5) ∧ (5 : Int) < 1000 :=
  ⟨rfl, rfl, rfl, by decide⟩

/-- C1 (amended): for the timestamp-filtered synchronous extraction of
`lettapipeline_final.py`: on a window whose unique message with
`created_at > request_time` and role `"assistant"` carries a `send_message`
tool call with arguments decoding to a JSON object whose `message` field is
the string `X`, the per-poll scan of `get_response_message` returns `X`.
(The async `_process_messages` applies no timestamp filter and can answer
out of a different, stale message — see
`async_extraction_wrong_message`.) -/
theorem sync_extraction_unique_eligible (pre post : List LettaMessage) (t : Int)
    (m : LettaMessage) (args : String) (afs : List (String × PyVal)) (X : String)
    (hothers : ∀ m' ∈ pre ++ post, ¬(msgTime m' > t ∧ m'.role = "assistant"))
    (htime : msgTime m > t) (hrole : m.role = "assistant")
    (htc : m.tool_calls = some [⟨some ⟨"send_message", args⟩⟩])
    (hparse : json_loads args = some (PyVal.dict afs))
    (hmsg : getField afs "message" = some (PyVal.str X)) :
    scanMessages (pre ++ m :: post) t = some (PyVal.str X) := by
  have hpost : ∀ m' ∈ post.reverse, ¬(msgTime m' > t ∧ m'.role = "assistant") := by
    intro m' hm'
    exact hothers m' (List.mem_append_right pre (List.mem_reverse.mp hm'))
  rw [scanMessages, List.reverse_append, List.reverse_cons, List.append_assoc,
      List.singleton_append, scanRev_skip t post.reverse _ hpost]
  simp only [scanRev]
  rw [if_pos ⟨htime, hrole⟩, htc]
  simp [extractFromToolCalls, hparse, hmsg]

/-- Witness for `sync_extraction_unique_eligible`: request time 10; the
window holds a stale user message (time 5) and the unique eligible assistant
message (time 100) carrying `message: "Hi there"`. -/
theorem sync_extraction_unique_eligible_witness :
    scanMessages
      ([] ++ (⟨some 100, "assistant",
          some [⟨some ⟨"send_message", "\x7b\"message\": \"Hi there\"\x7d"⟩⟩]⟩ : LettaMessage) ::
        [⟨some 5, "user",
          some [⟨some ⟨"send_message", "\x7b\"message\": \"old\"\x7d"⟩⟩]⟩])
      10 = some (PyVal.str "Hi there") :=
  sync_extraction_unique_eligible []
    [⟨some 5, "user", some [⟨some ⟨"send_message", "\x7b\"message\": \"old\"\x7d"⟩⟩]⟩]
    10
    ⟨some 100, "assistant",
      some [⟨some ⟨"send_message", "\x7b\"message\": \"Hi there\"\x7d"⟩⟩]⟩
    "\x7b\"message\": \"Hi there\"\x7d"
    [("message", PyVal.str "Hi there")]
    "Hi there"
    (by
      intro m' hm'
      simp at hm'
      subst hm'
      decide)
    (by decide) rfl rfl rfl rfl

/-- C1 counterexample: under the claim's own hypotheses — the window
`[stale, fresh]` contains exactly one assistant message created after the
request time (the fresh one, time 100 > 10, carrying `message: "Hi there"`)
— the async extraction `_process_messages`, also named by the claim,
returns `"old"` taken from the stale user message earlier in the window,
not `"Hi there"`. -/
theorem async_extraction_wrong_message :
    process_messages (PyVal.list [staleToolCallMsg, freshToolCallMsg])
      = Except.ok (some (PyVal.str "old")) ∧
    isStrVal (getField freshFields "role") "assistant" = true ∧
    getField freshFields "created_at" = some (PyVal.int 100) ∧
    isStrVal (getField staleFields "role") "assistant" = false ∧
    ("old" : String) ≠ "Hi there" :=
  ⟨rfl, rfl, rfl, rfl, by decide⟩

/-- C3 (amended): in `lettapipeline_final.py`'s non-streaming `pipe`, when
the poll loop yields no result the caller receives exactly the fixed apology
string, and when extraction yields a *non-empty* string it is returned
verbatim.  (A successfully extracted but falsy value — e.g. the empty string
— fails the `if response_text:` truthiness check and also produces the
apology, see `empty_extraction_returns_apology`.) -/
theorem pipe_apology_or_verbatim (hs : Bool) (tp : FinalTransport) (t : Int)
    (X : String)
    (hsys : tp.sendSystem = Except.ok ())
    (husr : tp.sendUser = Except.ok ()) :
    ((get_response_message tp.listMessages t).1 = none →
      final_pipe false hs tp false t = PipeOut.str apology) ∧
    ((get_response_message tp.listMessages t).1 = some (PyVal.str X) → X ≠ "" →
      final_pipe false hs tp false t = PipeOut.str X) := by
  constructor
  · intro hnone
    simp only [final_pipe]
    cases hs <;> simp [hsys, husr, hnone]
  · intro hsome hne
    simp only [final_pipe]
    have ht : (PyVal.str X).truthy = true := by
      simp [PyVal.truthy]
      exact hne
    cases hs <;> simp [hsys, husr, hsome, ht]

/-- Witness for `pipe_apology_or_verbatim`: a transport whose first poll
returns the assistant reply `"Hi there"`; the non-streaming pipe returns it
verbatim, and with an always-raising transport it returns the apology. -/
theorem pipe_apology_or_verbatim_witness :
    final_pipe false false
      ⟨Except.ok (), Except.ok (),
        fun _ => Except.ok
          [⟨some 100, "assistant",
            some [⟨some ⟨"send_message", "\x7b\"message\": \"Hi there\"\x7d"⟩⟩]⟩]⟩
      false 10 = PipeOut.str "Hi there" ∧
    final_pipe false false
      ⟨Except.ok (), Except.ok (), fun _ => Except.error "ReadTimeout"⟩
      false 10 = PipeOut.str apology :=
  ⟨(pipe_apology_or_verbatim false
      ⟨Except.ok (), Except.ok (),
        fun _ => Except.ok
          [⟨some 100, "assistant",
            some [⟨some ⟨"send_message", "\x7b\"message\": \"Hi there\"\x7d"⟩⟩]⟩]⟩
      10 "Hi there" rfl rfl).2 rfl (by decide),
   (pipe_apology_or_verbatim false
      ⟨Except.ok (), Except.ok (), fun _ => Except.error "ReadTimeout"⟩
      10 "unused" rfl rfl).1 rfl⟩

/-- C3 counterexample: an eligible assistant message carrying
`message: ""`.  The extraction succeeds — `get_response_message` returns the
empty string — yet the non-streaming pipe does not return that extracted
string verbatim: the falsy value fails `if response_text:` and the apology is
returned instead. -/
theorem empty_extraction_returns_apology :
    (get_response_message
      (fun _ => Except.ok
        [⟨some 5, "assistant",
          some [⟨some ⟨"send_message", "\x7b\"message\": \"\"\x7d"⟩⟩]⟩]) 0).1
      = some (PyVal.str "") ∧
    final_pipe false false
      ⟨Except.ok (), Except.ok (),
        fun _ => Except.ok
          [⟨some 5, "assistant",
            some [⟨some ⟨"send_message", "\x7b\"message\": \"\"\x7d"⟩⟩]⟩]⟩
      false 0 = PipeOut.str apology ∧
    apology ≠ "" :=
  ⟨rfl, rfl, by decide⟩

/-- C4 (amended): in the async polling loop, when every attempt either
raises or yields nothing extractable, exactly `maxAttempts` `GET` polls are
issued — an exception is caught by the in-loop handler, consumes its
attempt, and the loop continues — and the loop then gives up with the
apology completion.  (In `lettapipeline_final.py`, by contrast, a transport
exception escapes the `while` loop to the outer handler, ending polling
immediately — see `sync_poll_aborts_on_error`.) -/
theorem poll_loop_exhausts_attempts (tr : Nat → Except String PyVal)
    (maxAttempts : Nat) (h : ∀ i, attemptNoResult (tr i) = true) :
    ∀ idx, pollLoop tr idx maxAttempts []
      = ([Ev.completion (PyVal.str apology) true], maxAttempts) := by
  induction maxAttempts with
  | zero => intro idx; rfl
  | succ rem ih =>
    intro idx
    have hi := h idx
    simp only [pollLoop]
    cases htr : tr idx with
    | error e => simp [ih (idx + 1)]
    | ok md =>
      rw [htr] at hi
      cases md with
      | list xs =>
        cases xs with
        | nil => simp [ih (idx + 1)]
        | cons m ms =>
          dsimp only
          simp only [attemptNoResult] at hi
          cases hscan : pollScan ((m :: ms).reverse) [] with
          | mk emitted rest =>
            cases rest with
            | mk acc2 raised =>
              rw [hscan] at hi
              simp only [Bool.and_eq_true, List.isEmpty_iff] at hi
              obtain ⟨he, ha⟩ := hi
              subst he
              subst ha
              cases raised <;> simp [ih (idx + 1)]
      | null => simp [ih (idx + 1)]
      | bool b => simp [ih (idx + 1)]
      | int n => simp [ih (idx + 1)]
      | str s => simp [ih (idx + 1)]
      | dict fs => simp [ih (idx + 1)]

/-- Witness for `poll_loop_exhausts_attempts` at the specification's own
example: `maxAttempts = 3` with a transport that always times out returns
the apology after exactly 3 polls, never more. -/
theorem poll_loop_exhausts_attempts_witness :
    pollLoop (fun _ => Except.error "ReadTimeout") 0 3 []
      = ([Ev.completion (PyVal.str apology) true], 3) :=
  poll_loop_exhausts_attempts (fun _ => Except.error "ReadTimeout") 3
    (fun _ => rfl) 0

/-- C4 counterexample: in `lettapipeline_final.py`'s `get_response_message`
(also named by the claim), a transport exception is not caught inside the
`while` loop: the outer handler returns `None` at once, so an always-failing
transport consumes a single `get_messages` call instead of the loop's
`max_attempts = 5`. -/
theorem sync_poll_aborts_on_error :
    get_response_message (fun _ => Except.error "ReadTimeout") 0 = (none, 1) ∧
    (1 : Nat) ≠ 5 :=
  ⟨rfl, by decide⟩

theorem pollScan_acc : ∀ (l acc : List PyVal),
    (pollScan l acc).2.1 = acc ++ (pollScan l acc).1 := by
  intro l
  induction l with
  | nil => intro acc; simp [pollScan]
  | cons m rest ih =>
    intro acc
    cases m with
    | dict fs =>
      simp only [pollScan]
      split
      · split
        · simp
        · rename_i v heq
          split
          · dsimp only
            rw [ih (acc ++ [v])]
            simp
          · exact ih acc
        · exact ih acc
      · exact ih acc
    | null => simp [pollScan]
    | bool b => simp [pollScan]
    | int n => simp [pollScan]
    | str s => simp [pollScan]
    | list xs => simp [pollScan]

theorem pollScan_pairwise : ∀ (l acc : List PyVal),
    List.Pairwise (fun a b => PyVal.beq b a = false) acc →
    List.Pairwise (fun a b => PyVal.beq b a = false) (pollScan l acc).2.1 := by
  intro l
  induction l with
  | nil => intro acc hacc; simpa [pollScan] using hacc
  | cons m rest ih =>
    intro acc hacc
    cases m with
    | dict fs =>
      simp only [pollScan]
      split
      · split
        · simpa using hacc
        · rename_i v heq
          split
          · rename_i hcond
            have hnew : List.Pairwise (fun a b => PyVal.beq b a = false) (acc ++ [v]) := by
              rw [List.pairwise_append]
              refine ⟨hacc, List.pairwise_singleton _ _, ?_⟩
              intro a ha b hb
              have hb' : b = v := by simpa using hb
              subst hb'
              have hmem := hcond.2
              rw [pyMem] at hmem
              exact Bool.eq_false_iff.mpr (List.any_eq_false.mp hmem a ha)
            dsimp only
            exact ih (acc ++ [v]) hnew
          · exact ih acc hacc
        · exact ih acc hacc
      · exact ih acc hacc
    | null => simpa [pollScan] using hacc
    | bool b => simpa [pollScan] using hacc
    | int n => simpa [pollScan] using hacc
    | str s => simpa [pollScan] using hacc
    | list xs => simpa [pollScan] using hacc

theorem pollLoop_structure (tr : Nat → Except String PyVal) :
    ∀ (rem idx : Nat) (acc : List PyVal),
    List.Pairwise (fun a b => PyVal.beq b a = false) acc →
    ∃ (cs : List PyVal) (lastE : Ev),
      (pollLoop tr idx rem acc).1
        = cs.map (fun c => Ev.completion c false) ++ [lastE] ∧
      List.Pairwise (fun a b => PyVal.beq b a = false) (acc ++ cs) ∧
      (lastE = Ev.completion (PyVal.str apology) true ∨
        ∃ j, joinContents (acc ++ cs) = Except.ok j ∧
          lastE = Ev.completion (PyVal.str j) true) := by
  intro rem
  induction rem with
  | zero =>
    intro idx acc hacc
    exact ⟨[], Ev.completion (PyVal.str apology) true, by simp [pollLoop],
      by simpa using hacc, Or.inl rfl⟩
  | succ r ih =>
    intro idx acc hacc
    simp only [pollLoop]
    cases htr : tr idx with
    | error e =>
      dsimp only
      obtain ⟨cs, lastE, h1, h2, h3⟩ := ih (idx + 1) acc hacc
      exact ⟨cs, lastE, h1, h2, h3⟩
    | ok md =>
      cases md with
      | list xs =>
        cases xs with
        | nil =>
          dsimp only
          obtain ⟨cs, lastE, h1, h2, h3⟩ := ih (idx + 1) acc hacc
          exact ⟨cs, lastE, h1, h2, h3⟩
        | cons m ms =>
          dsimp only
          have hacc2 := pollScan_pairwise ((m :: ms).reverse) acc hacc
          have haccapp := pollScan_acc ((m :: ms).reverse) acc
          split
          · obtain ⟨cs, lastE, h1, h2, h3⟩ :=
              ih (idx + 1) ((pollScan ((m :: ms).reverse) acc).2.1) hacc2
            refine ⟨(pollScan ((m :: ms).reverse) acc).1 ++ cs, lastE, ?_, ?_, ?_⟩
            · rw [List.map_append, List.append_assoc, h1]
            · rw [← List.append_assoc, ← haccapp]
              exact h2
            · cases h3 with
              | inl h => exact Or.inl h
              | inr h =>
                obtain ⟨j, hj1, hj2⟩ := h
                refine Or.inr ⟨j, ?_, hj2⟩
                rw [← List.append_assoc, ← haccapp]
                exact hj1
          · split
            · obtain ⟨cs, lastE, h1, h2, h3⟩ :=
                ih (idx + 1) ((pollScan ((m :: ms).reverse) acc).2.1) hacc2
              refine ⟨(pollScan ((m :: ms).reverse) acc).1 ++ cs, lastE, ?_, ?_, ?_⟩
              · rw [List.map_append, List.append_assoc, h1]
              · rw [← List.append_assoc, ← haccapp]
                exact h2
              · cases h3 with
                | inl h => exact Or.inl h
                | inr h =>
                  obtain ⟨j, hj1, hj2⟩ := h
                  refine Or.inr ⟨j, ?_, hj2⟩
                  rw [← List.append_assoc, ← haccapp]
                  exact hj1
            · split
              · rename_i j hj
                refine ⟨(pollScan ((m :: ms).reverse) acc).1,
                  Ev.completion (PyVal.str j) true, rfl, ?_, ?_⟩
                · rw [← haccapp]
                  exact hacc2
                · refine Or.inr ⟨j, ?_, rfl⟩
                  rw [← haccapp]
                  exact hj
              · obtain ⟨cs, lastE, h1, h2, h3⟩ :=
                  ih (idx + 1) ((pollScan ((m :: ms).reverse) acc).2.1) hacc2
                refine ⟨(pollScan ((m :: ms).reverse) acc).1 ++ cs, lastE, ?_, ?_, ?_⟩
                · rw [List.map_append, List.append_assoc, h1]
                · rw [← List.append_assoc, ← haccapp]
                  exact h2
                · cases h3 with
                  | inl h => exact Or.inl h
                  | inr h =>
                    obtain ⟨j, hj1, hj2⟩ := h
                    refine Or.inr ⟨j, ?_, hj2⟩
                    rw [← List.append_assoc, ← haccapp]
                    exact hj1
      | null =>
        dsimp only
        obtain ⟨cs, lastE, h1, h2, h3⟩ := ih (idx + 1) acc hacc
        exact ⟨cs, lastE, h1, h2, h3⟩
      | bool b =>
        dsimp only
        obtain ⟨cs, lastE, h1, h2, h3⟩ := ih (idx + 1) acc hacc
        exact ⟨cs, lastE, h1, h2, h3⟩
      | int n =>
        dsimp only
        obtain ⟨cs, lastE, h1, h2, h3⟩ := ih (idx + 1) acc hacc
        exact ⟨cs, lastE, h1, h2, h3⟩
      | str s =>
        dsimp only
        obtain ⟨cs, lastE, h1, h2, h3⟩ := ih (idx + 1) acc hacc
        exact ⟨cs, lastE, h1, h2, h3⟩
      | dict fs =>
        dsimp only
        obtain ⟨cs, lastE, h1, h2, h3⟩ := ih (idx + 1) acc hacc
        exact ⟨cs, lastE, h1, h2, h3⟩

theorem async_pipe_terminal_structure (tr : AsyncTransport) :
    ∃ (front : List Ev) (lastE : Ev),
      async_pipe false tr = front ++ [lastE] ∧
      (∀ ev ∈ front, Ev.isTerminal ev = false) ∧
      Ev.isTerminal lastE = true := by
  obtain ⟨cs, lastE, h1, h2, h3⟩ :=
    pollLoop_structure tr.getMessages 5 0 [] List.Pairwise.nil
  have hlast : Ev.isTerminal lastE = true := by
    cases h3 with
    | inl h => rw [h]; rfl
    | inr h =>
      obtain ⟨j, _, hj⟩ := h
      rw [hj]
      rfl
  have hpollpack :
      ∃ (front : List Ev) (lastE' : Ev),
        Ev.completion (PyVal.str "") false :: (pollLoop tr.getMessages 0 5 []).1
          = front ++ [lastE'] ∧
        (∀ ev ∈ front, Ev.isTerminal ev = false) ∧
        Ev.isTerminal lastE' = true := by
    refine ⟨Ev.completion (PyVal.str "") false :: cs.map (fun c => Ev.completion c false),
      lastE, ?_, ?_, hlast⟩
    · rw [h1]
      rfl
    · intro ev hev
      rcases List.mem_cons.mp hev with h | h
      · rw [h]; rfl
      · obtain ⟨c, _, hc⟩ := List.mem_map.mp h
        rw [← hc]
        rfl
  cases hpost : tr.post with
  | error err =>
    cases err with
    | status c =>
      refine ⟨[Ev.completion (PyVal.str "") false],
        Ev.error ("Failed to communicate with agent: " ++ toString c),
        by simp [async_pipe, hpost], ?_, rfl⟩
      intro ev hev
      rw [List.mem_singleton.mp hev]
      rfl
    | request =>
      refine ⟨[Ev.completion (PyVal.str "") false],
        Ev.error "Failed to connect to agent service",
        by simp [async_pipe, hpost], ?_, rfl⟩
      intro ev hev
      rw [List.mem_singleton.mp hev]
      rfl
    | jsonDecode =>
      refine ⟨[Ev.completion (PyVal.str "") false],
        Ev.error "Failed to process agent response",
        by simp [async_pipe, hpost], ?_, rfl⟩
      intro ev hev
      rw [List.mem_singleton.mp hev]
      rfl
    | other m =>
      refine ⟨[Ev.completion (PyVal.str "") false],
        Ev.error ("An unexpected error occurred: " ++ m),
        by simp [async_pipe, hpost], ?_, rfl⟩
      intro ev hev
      rw [List.mem_singleton.mp hev]
      rfl
  | ok rd =>
    cases rd with
    | dict fs =>
      cases hpm : process_messages ((getField fs "messages").getD (PyVal.list [])) with
      | error e =>
        refine ⟨[Ev.completion (PyVal.str "") false],
          Ev.error ("An unexpected error occurred: " ++ e),
          by simp [async_pipe, hpost, hpm], ?_, rfl⟩
        intro ev hev
        rw [List.mem_singleton.mp hev]
        rfl
      | ok oc =>
        cases oc with
        | some content =>
          by_cases hct : content.truthy
          · refine ⟨[Ev.completion (PyVal.str "") false],
              Ev.completion content true,
              by simp [async_pipe, hpost, hpm, hct], ?_, rfl⟩
            intro ev hev
            rw [List.mem_singleton.mp hev]
            rfl
          · obtain ⟨front, l', hf1, hf2, hf3⟩ := hpollpack
            refine ⟨front, l', ?_, hf2, hf3⟩
            rw [← hf1]
            simp [async_pipe, hpost, hpm, hct]
        | none =>
          obtain ⟨front, l', hf1, hf2, hf3⟩ := hpollpack
          refine ⟨front, l', ?_, hf2, hf3⟩
          rw [← hf1]
          simp [async_pipe, hpost, hpm]
    | null =>
      refine ⟨[Ev.completion (PyVal.str "") false],
        Ev.error ("An unexpected error occurred: " ++ "AttributeError"),
        by simp [async_pipe, hpost], ?_, rfl⟩
      intro ev hev
      rw [List.mem_singleton.mp hev]
      rfl
    | bool b =>
      refine ⟨[Ev.completion (PyVal.str "") false],
        Ev.error ("An unexpected error occurred: " ++ "AttributeError"),
        by simp [async_pipe, hpost], ?_, rfl⟩
      intro ev hev
      rw [List.mem_singleton.mp hev]
      rfl
    | int n =>
      refine ⟨[Ev.completion (PyVal.str "") false],
        Ev.error ("An unexpected error occurred: " ++ "AttributeError"),
        by simp [async_pipe, hpost], ?_, rfl⟩
      intro ev hev
      rw [List.mem_singleton.mp hev]
      rfl
    | str s =>
      refine ⟨[Ev.completion (PyVal.str "") false],
        Ev.error ("An unexpected error occurred: " ++ "AttributeError"),
        by simp [async_pipe, hpost], ?_, rfl⟩
      intro ev hev
      rw [List.mem_singleton.mp hev]
      rfl
    | list xs =>
      refine ⟨[Ev.completion (PyVal.str "") false],
        Ev.error ("An unexpected error occurred: " ++ "AttributeError"),
        by simp [async_pipe, hpost], ?_, rfl⟩
      intro ev hev
      rw [List.mem_singleton.mp hev]
      rfl

/-- C5 (amended): every invocation of the async event-envelope `pipe` with
the `title` flag unset emits exactly one terminal record — a
`chat:completion` with `done:true` or a `chat:error` — and that record is
the last event emitted.  (A title invocation emits a single `chat:title`
record and no terminal record at all — see
`title_invocation_no_terminal`.) -/
theorem async_stream_single_terminal (tr : AsyncTransport) :
    (async_pipe false tr).countP (fun ev => Ev.isTerminal ev) = 1 ∧
    ∃ lastE, (async_pipe false tr).getLast? = some lastE ∧
      Ev.isTerminal lastE = true := by
  obtain ⟨front, lastE, h1, h2, h3⟩ := async_pipe_terminal_structure tr
  constructor
  · rw [h1, List.countP_append]
    rw [List.countP_eq_zero.mpr (fun a ha => by rw [h2 a ha]; exact Bool.false_ne_true)]
    simp [List.countP_cons, h3]
  · refine ⟨lastE, ?_, h3⟩
    rw [h1, List.getLast?_concat]

/-- C5 counterexample: an invocation of the event-envelope streaming pipe
with a truthy `title` in the body emits only the `chat:title` record — zero
terminal records, contradicting "exactly one terminal record for every
invocation". -/
theorem title_invocation_no_terminal :
    async_pipe true ⟨Except.ok PyVal.null, fun _ => Except.error "down"⟩
      = [Ev.title asyncName] ∧
    Ev.isTerminal (Ev.title asyncName) = false ∧
    (async_pipe true ⟨Except.ok PyVal.null, fun _ => Except.error "down"⟩).countP
      (fun ev => Ev.isTerminal ev) = 0 :=
  ⟨rfl, rfl, rfl⟩

/-- C9: in the accumulating async poll loop the incremental `done:false`
events carry pairwise-distinct fragments (duplicates dropped by the
`content not in accumulated_content` equality check) in first-extraction
order, and the terminal record is either the apology (nothing found within
the window) or the `" "`-join of exactly that fragment sequence — fragments
are gathered until polling ends rather than the loop returning on the first
matching message. -/
theorem accumulation_joins_distinct_fragments (tr : Nat → Except String PyVal)
    (maxAttempts idx : Nat) :
    ∃ (cs : List PyVal) (lastE : Ev),
      (pollLoop tr idx maxAttempts []).1
        = cs.map (fun c => Ev.completion c false) ++ [lastE] ∧
      List.Pairwise (fun a b => PyVal.beq b a = false) cs ∧
      (lastE = Ev.completion (PyVal.str apology) true ∨
        ∃ j, joinContents cs = Except.ok j ∧
          lastE = Ev.completion (PyVal.str j) true) := by
  obtain ⟨cs, lastE, h1, h2, h3⟩ :=
    pollLoop_structure tr maxAttempts idx [] List.Pairwise.nil
  exact ⟨cs, lastE, h1, by simpa using h2, by simpa using h3⟩

/-- C8: for every transport behaviour, exceptions included, both pipes hand
their caller a value rather than raising: the synchronous `pipe` returns the
pipeline name on title requests and converts any exception raised while
talking to the agent into the `"Error communicating with agent: ..."`
string; the async `pipe` emits the `chat:title` record on title requests and
otherwise always ends its event sequence with a terminal record (success
completion or `chat:error`). -/
theorem pipe_never_raises (hs : Bool) (tp : FinalTransport) (stream : Bool)
    (t : Int) (e : String) (s1 : Except String Unit)
    (lm : Nat → Except String (List LettaMessage)) (tr : AsyncTransport) :
    final_pipe true hs tp stream t = PipeOut.str pipelineName ∧
    final_pipe false false ⟨s1, Except.error e, lm⟩ stream t
      = PipeOut.str ("Error communicating with agent: " ++ e) ∧
    final_pipe false true ⟨Except.error e, tp.sendUser, lm⟩ stream t
      = PipeOut.str ("Error communicating with agent: " ++ e) ∧
    async_pipe true tr = [Ev.title asyncName] ∧
    (∃ lastE, (async_pipe false tr).getLast? = some lastE ∧
      Ev.isTerminal lastE = true) := by
  refine ⟨rfl, rfl, rfl, rfl, ?_⟩
  obtain ⟨front, lastE, h1, _, h3⟩ := async_pipe_terminal_structure tr
  refine ⟨lastE, ?_, h3⟩
  rw [h1, List.getLast?_concat]
